import Mathlib

/-!
# Verification of the demand-forecasting engine (`src/lib/forecasting.ts`)

Shallow embedding of the advanced forecasting module over exact rational
arithmetic.  Modelling conventions:

* JS `number` quantities and all intermediate statistics are embedded as `ℚ`
  (exact arithmetic standing for IEEE doubles).
* A parsed `Date` is embedded as its epoch-milliseconds timestamp (`ℤ`,
  i.e. `getTime()`); `Date.prototype.getDay` is modelled in UTC from the
  timestamp (the epoch day, 1970-01-01, was a Thursday = weekday 4).
* `Math.exp` is a transcendental function with no exact rational value, so the
  embedding abstracts it as an explicit weight-function parameter
  `E : ℚ → ℚ`; the theorems below hold for every such `E` (or for every
  positive `E`), in particular for any rational approximation of `exp`.
* `Math.round` is round-half-toward-positive-infinity, exactly Mathlib's
  `round` (`round x = ⌊x + 1/2⌋`).
* JS `Array.prototype.sort` is stable (ES2019); it is embedded as the stable
  `List.insertionSort` with the comparator `a.date.getTime() ≤ b.date.getTime()`.
* A JS object used as a string-keyed map preserves key insertion order; the
  grouped map is embedded as the first-occurrence key list `itemKeys` together
  with the per-key record list `itemGroup`, and the returned `ForecastResult`
  object as an association list `List (String × ℤ)`.
* The `weekOfYear` field of `TimeSeriesData` is computed by the source but
  never read by any estimator, so it is omitted from the embedding.
* The `targetDate` argument is modelled as required; the `getTomorrowDate()`
  default reads the wall clock and is outside the embedding.
-/

namespace ForecastingTs

/-- `1000 * 60 * 60 * 24`, the millisecond-per-day constant of the source. -/
def msPerDay : ℤ := 1000 * 60 * 60 * 24

/-- `Date.prototype.getDay` modelled in UTC from an epoch-milliseconds
timestamp: the weekday in `0..6` (0 = Sunday), the epoch falling on a
Thursday (= 4). -/
def getDay (t : ℤ) : ℤ := (t.fdiv msPerDay + 4).emod 7

/-- `interface SalesRecord { date: string; item: string; quantity: number }`,
with the date already parsed to its timestamp. -/
structure SalesRecord where
  date : ℤ
  item : String
  quantity : ℚ
deriving DecidableEq, Repr, Inhabited

/-- `interface TimeSeriesData` (minus the unread `weekOfYear` field). -/
structure TimeSeriesData where
  time : ℤ
  quantity : ℚ
  dayOfWeek : ℤ
  daysSinceStart : ℤ
deriving DecidableEq, Repr, Inhabited

/-- The record-to-point conversion performed inside the grouping loop of
`advancedForecast`: `daysSinceStart` is initialised to 0 ("Will calculate
later"). -/
def toPoint (r : SalesRecord) : TimeSeriesData :=
  { time := r.date
    quantity := r.quantity
    dayOfWeek := getDay r.date
    daysSinceStart := 0 }

/-- Key insertion into a JS object: a fresh key is appended at the end of the
key order, an existing key leaves the order unchanged. -/
def insertKey (ks : List String) (k : String) : List String :=
  if k ∈ ks then ks else ks ++ [k]

/-- The key list of the `itemData` object built by the `forEach` grouping
loop: item identifiers in order of first occurrence. -/
def itemKeys (records : List SalesRecord) : List String :=
  records.foldl (fun ks r => insertKey ks r.item) []

/-- The per-item record list of the `itemData` object: the `push` calls keep
input order, so the group equals the input filtered to that item. -/
def itemGroup (records : List SalesRecord) (item : String) : List SalesRecord :=
  records.filter fun r => r.item = item

/-- The sort comparator `(a, b) => a.date.getTime() - b.date.getTime()`. -/
def timeLE (a b : TimeSeriesData) : Prop := a.time ≤ b.time

instance : DecidableRel timeLE := fun a b => Int.decLe a.time b.time

instance : IsTotal TimeSeriesData timeLE := ⟨fun a b => Int.le_total a.time b.time⟩

instance : IsTrans TimeSeriesData timeLE := ⟨fun _ _ _ h h' => le_trans h h'⟩

/-- The chronological sort.  `Array.prototype.sort` is stable, as is
`List.insertionSort`. -/
def sortByTime (ts : List TimeSeriesData) : List TimeSeriesData :=
  List.insertionSort timeLE ts

/-- The `daysSinceStart` pass: for a sorted series, offset of each point from
the first point in whole days, plus one (`Math.floor((t − t₀) / msPerDay) + 1`). -/
def annotate (ts : List TimeSeriesData) : List TimeSeriesData :=
  match ts with
  | [] => []
  | t0 :: _ =>
    ts.map fun p => { p with daysSinceStart := (p.time - t0.time).fdiv msPerDay + 1 }

/-- `weightedMovingAverage(timeSeries, recentWeight = 0.7)`: exponential
position weights `E((i/n)·recentWeight·3)` over the sorted series. -/
def weightedMovingAverage (E : ℚ → ℚ) (ts : List TimeSeriesData) (recentWeight : ℚ) : ℚ :=
  if ts.length = 0 then 0
  else
    let n : ℚ := ts.length
    let weightedSum :=
      (ts.enum.map fun ip => ip.2.quantity * E ((ip.1 : ℚ) / n * recentWeight * 3)).sum
    let totalWeight :=
      (ts.enum.map fun ip => E ((ip.1 : ℚ) / n * recentWeight * 3)).sum
    if 0 < totalWeight then weightedSum / totalWeight else 0

/-- `exponentialSmoothing(timeSeries, alpha = 0.3)`: seeded at the first
quantity, then `smoothed = alpha*qᵢ + (1 − alpha)*smoothed` over the rest. -/
def exponentialSmoothing (ts : List TimeSeriesData) (alpha : ℚ) : ℚ :=
  match ts with
  | [] => 0
  | p :: rest =>
    rest.foldl (fun smoothed q => alpha * q.quantity + (1 - alpha) * smoothed) p.quantity

/-- `dayOfWeekPattern(timeSeries, targetDayOfWeek)`: recency-weighted average
of the same-weekday subset, falling back to the overall mean when the subset
is empty. -/
def dayOfWeekPattern (E : ℚ → ℚ) (ts : List TimeSeriesData) (targetDayOfWeek : ℤ) : ℚ :=
  let sameDayData := ts.filter fun p => p.dayOfWeek = targetDayOfWeek
  if sameDayData.length = 0 then
    if 0 < ts.length then (ts.map fun p => p.quantity).sum / ts.length else 0
  else
    let m : ℚ := sameDayData.length
    let weightedSum :=
      (sameDayData.enum.map fun ip => ip.2.quantity * E ((ip.1 : ℚ) / m * 2)).sum
    let totalWeight :=
      (sameDayData.enum.map fun ip => E ((ip.1 : ℚ) / m * 2)).sum
    if 0 < totalWeight then weightedSum / totalWeight else 0

/-- `linearTrendForecast(timeSeries)`: ordinary least squares of quantity
against `daysSinceStart`, extrapolated one day past the last offset; mean on a
zero denominator; the single quantity (or 0) below two points. -/
def linearTrendForecast (ts : List TimeSeriesData) : ℚ :=
  if ts.length < 2 then
    if 0 < ts.length then ts.headI.quantity else 0
  else
    let n : ℚ := ts.length
    let sumX := (ts.map fun p => (p.daysSinceStart : ℚ)).sum
    let sumY := (ts.map fun p => p.quantity).sum
    let sumXY := (ts.map fun p => (p.daysSinceStart : ℚ) * p.quantity).sum
    let sumX2 := (ts.map fun p => (p.daysSinceStart : ℚ) * (p.daysSinceStart : ℚ)).sum
    let denominator := n * sumX2 - sumX * sumX
    if denominator = 0 then sumY / n
    else
      let m := (n * sumXY - sumX * sumY) / denominator
      let b := (sumY - m * sumX) / n
      let nextDay : ℚ := (((ts.getLast?.map fun p => p.daysSinceStart).getD 0 : ℤ) : ℚ) + 1
      m * nextDay + b

/-- The normalized series of one item: group, convert, chronological sort,
`daysSinceStart` annotation. -/
def seriesFor (records : List SalesRecord) (item : String) : List TimeSeriesData :=
  annotate (sortByTime ((itemGroup records item).map toPoint))

/-- The per-item body of the `Object.keys(itemData).forEach` loop of
`advancedForecast`: the four estimators combined with the fixed ensemble
weights `[0.3, 0.3, 0.25, 0.15]`, then `Math.max(0, Math.round(forecast))`. -/
def forecastItem (E : ℚ → ℚ) (records : List SalesRecord) (targetDayOfWeek : ℤ)
    (item : String) : ℤ :=
  let timeSeries := seriesFor records item
  if timeSeries.length = 0 then 0
  else
    let methods : List ℚ :=
      [weightedMovingAverage E timeSeries 0.7,
       exponentialSmoothing timeSeries 0.3,
       dayOfWeekPattern E timeSeries targetDayOfWeek,
       linearTrendForecast timeSeries]
    let weights : List ℚ := [0.3, 0.3, 0.25, 0.15]
    let forecast := (methods.zip weights).foldl (fun acc vw => acc + vw.1 * vw.2) 0
    max 0 (round forecast)

/-- `advancedForecast(historicalData, targetDate)` with an explicit target
timestamp: the returned object, as an association list in key insertion
order. -/
def advancedForecast (E : ℚ → ℚ) (historicalData : List SalesRecord) (target : ℤ) :
    List (String × ℤ) :=
  let targetDayOfWeek := getDay target
  (itemKeys historicalData).map fun item =>
    (item, forecastItem E historicalData targetDayOfWeek item)

/-- The smoothing recursion exactly as the spec words it (§4.4): seed
`S₀ = first quantity`, then `Sᵢ = α·qᵢ + (1 − α)·Sᵢ₋₁` over the remaining
quantities in order, returning the final `S`. -/
def esSpecRecursion (alpha : ℚ) : ℚ → List ℚ → ℚ
  | s, [] => s
  | s, q :: qs => esSpecRecursion alpha (alpha * q + (1 - alpha) * s) qs

/-- Scenario A input: "Burger" with quantities 10, 12, 11, 13, 12, 14, 13 on
seven consecutive calendar days. -/
def burgerRecords : List SalesRecord :=
  [⟨0, "Burger", 10⟩, ⟨86400000, "Burger", 12⟩, ⟨172800000, "Burger", 11⟩,
   ⟨259200000, "Burger", 13⟩, ⟨345600000, "Burger", 12⟩, ⟨432000000, "Burger", 14⟩,
   ⟨518400000, "Burger", 13⟩]

/-! ### Helper lemmas -/

lemma mem_insertKey {ks : List String} {k s : String} :
    s ∈ insertKey ks k ↔ s ∈ ks ∨ s = k := by
  unfold insertKey
  split
  · rename_i hk
    constructor
    · exact fun h => Or.inl h
    · rintro (h | rfl)
      · exact h
      · exact hk
  · simp [List.mem_append]

lemma mem_foldl_insertKey (recs : List SalesRecord) (ks : List String) (s : String) :
    s ∈ recs.foldl (fun ks r => insertKey ks r.item) ks ↔
      s ∈ ks ∨ s ∈ recs.map fun r => r.item := by
  induction recs generalizing ks with
  | nil => simp
  | cons r recs ih =>
    simp only [List.foldl_cons, List.map_cons, List.mem_cons]
    rw [ih, mem_insertKey]
    tauto

lemma mem_itemKeys {recs : List SalesRecord} {s : String} :
    s ∈ itemKeys recs ↔ s ∈ recs.map fun r => r.item := by
  unfold itemKeys
  rw [mem_foldl_insertKey]
  simp

lemma lookup_map_keys (f : String → ℤ) (item : String) :
    ∀ ks : List String,
      (ks.map fun k => (k, f k)).lookup item = if item ∈ ks then some (f item) else none
  | [] => rfl
  | k :: ks => by
    simp only [List.map_cons, List.lookup_cons, List.mem_cons]
    by_cases h : item = k
    · subst h
      simp
    · rw [beq_eq_false_iff_ne.mpr h]
      simp [h, lookup_map_keys f item ks]

lemma lookup_advancedForecast (E : ℚ → ℚ) (recs : List SalesRecord) (target : ℤ)
    (item : String) :
    (advancedForecast E recs target).lookup item =
      if item ∈ recs.map (fun r => r.item) then
        some (forecastItem E recs (getDay target) item)
      else none := by
  unfold advancedForecast
  rw [lookup_map_keys (fun k => forecastItem E recs (getDay target) k) item (itemKeys recs)]
  simp [mem_itemKeys]

lemma forecastItem_nonneg (E : ℚ → ℚ) (recs : List SalesRecord) (d : ℤ) (item : String) :
    0 ≤ forecastItem E recs d item := by
  unfold forecastItem
  simp only []
  split
  · exact le_refl 0
  · exact le_max_left 0 _

lemma dayOfWeekPattern_fallback (E : ℚ → ℚ) (ts : List TimeSeriesData) (w : ℤ)
    (hne : ts ≠ []) (hw : ∀ p ∈ ts, p.dayOfWeek ≠ w) :
    dayOfWeekPattern E ts w = (ts.map fun p => p.quantity).sum / ts.length := by
  have hfilter : (ts.filter fun p => p.dayOfWeek = w) = [] := by
    rw [List.filter_eq_nil_iff]
    intro p hp
    simpa using hw p hp
  have hlen : 0 < ts.length := List.length_pos.2 hne
  unfold dayOfWeekPattern
  simp [hfilter, hlen]

lemma enum_singleton (p : TimeSeriesData) : ([p] : List TimeSeriesData).enum = [(0, p)] := rfl

lemma wma_singleton (E : ℚ → ℚ) (p : TimeSeriesData) (r : ℚ) (hE : 0 < E 0) :
    weightedMovingAverage E [p] r = p.quantity := by
  simp only [weightedMovingAverage, enum_singleton, List.map_cons, List.map_nil,
    List.sum_cons, List.sum_nil, add_zero, List.length_cons, List.length_nil]
  norm_num
  rw [if_pos hE]
  exact mul_div_cancel_right₀ _ (ne_of_gt hE)

lemma dow_filter_singleton (E : ℚ → ℚ) (ts : List TimeSeriesData) (d : ℤ)
    (p : TimeSeriesData) (hE : 0 < E 0)
    (hf : (ts.filter fun q => q.dayOfWeek = d) = [p]) :
    dayOfWeekPattern E ts d = p.quantity := by
  simp only [dayOfWeekPattern, hf, enum_singleton, List.map_cons, List.map_nil,
    List.sum_cons, List.sum_nil, add_zero, List.length_cons, List.length_nil]
  norm_num
  rw [if_pos hE]
  exact mul_div_cancel_right₀ _ (ne_of_gt hE)

lemma dow_singleton (E : ℚ → ℚ) (p : TimeSeriesData) (d : ℤ) (hE : 0 < E 0) :
    dayOfWeekPattern E [p] d = p.quantity := by
  by_cases h : p.dayOfWeek = d
  · exact dow_filter_singleton E [p] d p hE (by simp [h])
  · rw [dayOfWeekPattern_fallback E [p] d (by simp) (by simpa using h)]
    simp

lemma lt_singleton (p : TimeSeriesData) : linearTrendForecast [p] = p.quantity := by
  simp [linearTrendForecast]

lemma seriesFor_singleton (recs : List SalesRecord) (item : String) (r : SalesRecord)
    (hg : itemGroup recs item = [r]) :
    seriesFor recs item =
      [{ time := r.date, quantity := r.quantity, dayOfWeek := getDay r.date,
         daysSinceStart := 1 }] := by
  unfold seriesFor sortByTime
  rw [hg]
  simp [annotate, toPoint, List.insertionSort, Int.zero_fdiv]

lemma forecastItem_singleton (E : ℚ → ℚ) (recs : List SalesRecord) (d : ℤ) (item : String)
    (p : TimeSeriesData) (hE : 0 < E 0) (hs : seriesFor recs item = [p]) :
    forecastItem E recs d item = max 0 (round p.quantity) := by
  simp only [forecastItem, hs]
  rw [if_neg (by simp)]
  rw [wma_singleton E p _ hE, dow_singleton E p d hE, lt_singleton p]
  simp only [exponentialSmoothing, List.foldl_nil]
  simp only [List.zip_cons_cons, List.zip_nil_left, List.foldl_cons, List.foldl_nil]
  have h : (0 : ℚ) + p.quantity * 0.3 + p.quantity * 0.3 + p.quantity * 0.25 +
      p.quantity * 0.15 = p.quantity := by ring
  rw [h]

lemma length_annotate (ts : List TimeSeriesData) : (annotate ts).length = ts.length := by
  cases ts <;> simp [annotate]

lemma length_seriesFor (recs : List SalesRecord) (item : String) :
    (seriesFor recs item).length = (itemGroup recs item).length := by
  unfold seriesFor sortByTime
  rw [length_annotate, (List.perm_insertionSort timeLE _).length_eq, List.length_map]

lemma mem_items_of_itemGroup_ne_nil {recs : List SalesRecord} {item : String}
    (h : itemGroup recs item ≠ []) : item ∈ recs.map fun r => r.item := by
  obtain ⟨r, hr⟩ := List.exists_mem_of_ne_nil _ h
  rw [itemGroup, List.mem_filter] at hr
  exact List.mem_map.mpr ⟨r, hr.1, by simpa using hr.2⟩

lemma sortByTime_sorted (l : List TimeSeriesData) : (sortByTime l).Sorted timeLE :=
  List.sorted_insertionSort timeLE l

lemma sortByTime_perm (l : List TimeSeriesData) : (sortByTime l).Perm l :=
  List.perm_insertionSort timeLE l

/-- Two sorted permutations of each other are equal when the sort key
determines the element. -/
lemma sorted_eq_of_perm_of_uniqueTime (l₁ : List TimeSeriesData) :
    ∀ l₂, l₁.Perm l₂ → l₁.Sorted timeLE → l₂.Sorted timeLE →
      (∀ a ∈ l₁, ∀ b ∈ l₁, a.time = b.time → a = b) → l₁ = l₂ := by
  induction l₁ with
  | nil =>
    intro l₂ hp _ _ _
    exact hp.nil_eq
  | cons a t₁ ih =>
    intro l₂ hp hs₁ hs₂ hu
    cases l₂ with
    | nil => exact absurd hp.eq_nil (List.cons_ne_nil a t₁)
    | cons b t₂ =>
      have hab : a = b := by
        have ha2 : a ∈ b :: t₂ := hp.subset (List.mem_cons_self a t₁)
        rcases List.mem_cons.1 ha2 with h | h
        · exact h
        · have hb1 : b ∈ a :: t₁ := hp.symm.subset (List.mem_cons_self b t₂)
          rcases List.mem_cons.1 hb1 with h' | h'
          · exact h'.symm
          · have hba : timeLE b a := (List.sorted_cons.1 hs₂).1 a h
            have hab' : timeLE a b := (List.sorted_cons.1 hs₁).1 b h'
            exact hu a (List.mem_cons_self a t₁) b hb1 (le_antisymm hab' hba)
      subst hab
      have ht := ih t₂ hp.cons_inv (List.sorted_cons.1 hs₁).2 (List.sorted_cons.1 hs₂).2
        fun x hx y hy hxy =>
          hu x (List.mem_cons_of_mem a hx) y (List.mem_cons_of_mem a hy) hxy
      rw [ht]

/-- Permuting the input does not change an item's normalized series, provided
that within the item a calendar date determines the record. -/
lemma seriesFor_perm_eq (l₁ l₂ : List SalesRecord) (item : String) (hp : l₁.Perm l₂)
    (hdate : ∀ r ∈ l₁, ∀ s ∈ l₁, r.item = s.item → r.date = s.date → r = s) :
    seriesFor l₁ item = seriesFor l₂ item := by
  have hg : (itemGroup l₁ item).Perm (itemGroup l₂ item) := hp.filter _
  have hperm : (sortByTime ((itemGroup l₁ item).map toPoint)).Perm
      (sortByTime ((itemGroup l₂ item).map toPoint)) :=
    (sortByTime_perm _).trans ((hg.map toPoint).trans (sortByTime_perm _).symm)
  have huniq : ∀ a ∈ sortByTime ((itemGroup l₁ item).map toPoint),
      ∀ b ∈ sortByTime ((itemGroup l₁ item).map toPoint), a.time = b.time → a = b := by
    intro a ha b hb htime
    have ha' : a ∈ (itemGroup l₁ item).map toPoint := (sortByTime_perm _).subset ha
    have hb' : b ∈ (itemGroup l₁ item).map toPoint := (sortByTime_perm _).subset hb
    obtain ⟨ra, hra, rfl⟩ := List.mem_map.1 ha'
    obtain ⟨rb, hrb, rfl⟩ := List.mem_map.1 hb'
    have hia := List.mem_filter.1 hra
    have hib := List.mem_filter.1 hrb
    have hitem : ra.item = rb.item := by
      have h1 : ra.item = item := by simpa using hia.2
      have h2 : rb.item = item := by simpa using hib.2
      rw [h1, h2]
    rw [hdate ra hia.1 rb hib.1 hitem htime]
  have heq := sorted_eq_of_perm_of_uniqueTime _ _ hperm (sortByTime_sorted _)
    (sortByTime_sorted _) huniq
  unfold seriesFor
  rw [heq]

lemma list_sum_pos (l : List ℚ) (h : ∀ x ∈ l, 0 < x) (hne : l ≠ []) : 0 < l.sum := by
  induction l with
  | nil => exact absurd rfl hne
  | cons x xs ih =>
    rw [List.sum_cons]
    rcases eq_or_ne xs [] with rfl | hxs
    · simpa using h x (List.mem_cons_self x [])
    · have h1 : 0 < xs.sum := ih (fun y hy => h y (List.mem_cons_of_mem x hy)) hxs
      have h2 := h x (List.mem_cons_self x xs)
      linarith

/-- A weighted average with positive weights stays between the bounds of the
averaged values. -/
lemma wma_bounds (E : ℚ → ℚ) (ts : List TimeSeriesData) (r lo hi : ℚ)
    (hE : ∀ x, 0 < E x) (hne : ts ≠ [])
    (hlo : ∀ p ∈ ts, lo ≤ p.quantity) (hhi : ∀ p ∈ ts, p.quantity ≤ hi) :
    lo ≤ weightedMovingAverage E ts r ∧ weightedMovingAverage E ts r ≤ hi := by
  have hlen : ¬ ts.length = 0 := by simpa [List.length_eq_zero] using hne
  have hTW : 0 < (ts.enum.map fun ip => E ((ip.1 : ℚ) / (ts.length : ℚ) * r * 3)).sum := by
    apply list_sum_pos
    · intro x hx
      obtain ⟨ip, _, rfl⟩ := List.mem_map.1 hx
      exact hE _
    · simp [List.enum_eq_nil, hne]
  have hle : (ts.enum.map fun ip =>
        ip.2.quantity * E ((ip.1 : ℚ) / (ts.length : ℚ) * r * 3)).sum ≤
      hi * (ts.enum.map fun ip => E ((ip.1 : ℚ) / (ts.length : ℚ) * r * 3)).sum := by
    rw [← List.sum_map_mul_left]
    apply List.sum_le_sum
    intro ip hip
    exact mul_le_mul_of_nonneg_right (hhi _ (List.snd_mem_of_mem_enum hip))
      (le_of_lt (hE _))
  have hge : lo * (ts.enum.map fun ip => E ((ip.1 : ℚ) / (ts.length : ℚ) * r * 3)).sum ≤
      (ts.enum.map fun ip =>
        ip.2.quantity * E ((ip.1 : ℚ) / (ts.length : ℚ) * r * 3)).sum := by
    rw [← List.sum_map_mul_left]
    apply List.sum_le_sum
    intro ip hip
    exact mul_le_mul_of_nonneg_right (hlo _ (List.snd_mem_of_mem_enum hip))
      (le_of_lt (hE _))
  simp only [weightedMovingAverage]
  rw [if_neg hlen, if_pos hTW]
  exact ⟨(le_div_iff₀ hTW).mpr hge, (div_le_iff₀ hTW).mpr hle⟩

lemma round_mem_Icc {x : ℚ} {a b : ℤ} (h : (a : ℚ) - 1 / 2 ≤ x)
    (h' : x < (b : ℚ) + 1 / 2) : a ≤ round x ∧ round x ≤ b := by
  constructor
  · rw [round_eq]
    exact Int.le_floor.mpr (by linarith)
  · rw [round_eq]
    have hlt : ⌊x + 1 / 2⌋ < b + 1 := Int.floor_lt.mpr (by push_cast; linarith)
    omega

/-! ### Claim theorems -/

/-- **C1**: for every input batch and target date, every value in the mapping
returned by `advancedForecast` is a non-negative integer — the per-item
ensemble sum is rounded and clamped at 0. -/
theorem c1_output_nonneg (E : ℚ → ℚ) (recs : List SalesRecord) (target : ℤ)
    (item : String) (v : ℤ) (h : (item, v) ∈ advancedForecast E recs target) :
    0 ≤ v := by
  unfold advancedForecast at h
  simp only [List.mem_map] at h
  obtain ⟨k, _, hk⟩ := h
  rw [Prod.mk.injEq] at hk
  obtain ⟨rfl, rfl⟩ := hk
  exact forecastItem_nonneg _ _ _ _

unseal Rat.ofScientific Rat.mul Rat.inv Rat.add Rat.sub in
theorem c1_witness : 0 ≤ (5 : ℤ) :=
  c1_output_nonneg (fun _ => 1) [⟨0, "Salad", 5⟩] 0 "Salad" 5 (by decide)

/-- **C2**: the set of keys of the returned mapping equals the set of distinct
item identifiers occurring in the input; an empty batch returns an empty
mapping, and an item absent from the input is absent from the output. -/
theorem c2_keys_are_input_items (E : ℚ → ℚ) (recs : List SalesRecord) (target : ℤ) :
    (∀ s : String,
      s ∈ (advancedForecast E recs target).map Prod.fst ↔ s ∈ recs.map fun r => r.item) ∧
    advancedForecast E ([] : List SalesRecord) target = [] := by
  constructor
  · intro s
    have hfst : (advancedForecast E recs target).map Prod.fst = itemKeys recs := by
      unfold advancedForecast
      simp [Function.comp_def]
    rw [hfst]
    exact mem_itemKeys
  · rfl

/-- **C6**: when no point of a non-empty series matches the target weekday,
`dayOfWeekPattern` falls back to the unweighted mean of the whole series. -/
theorem c6_weekday_fallback (E : ℚ → ℚ) (ts : List TimeSeriesData) (w : ℤ)
    (hne : ts ≠ []) (hw : ∀ p ∈ ts, p.dayOfWeek ≠ w) :
    dayOfWeekPattern E ts w = (ts.map fun p => p.quantity).sum / ts.length :=
  dayOfWeekPattern_fallback E ts w hne hw

theorem c6_witness :
    dayOfWeekPattern (fun _ => 1) [⟨0, 4, 4, 1⟩, ⟨86400000, 6, 5, 2⟩] 0 =
      (([⟨0, 4, 4, 1⟩, ⟨86400000, 6, 5, 2⟩] : List TimeSeriesData).map fun p => p.quantity).sum /
        (([⟨0, 4, 4, 1⟩, ⟨86400000, 6, 5, 2⟩] : List TimeSeriesData).length) :=
  c6_weekday_fallback _ _ _ (by decide) (by decide)

/-- **C8**: `exponentialSmoothing` returns 0 on an empty series, the single
quantity on a length-1 series, and on any sorted series with α = 0.3 the final
value of the recursion `S₀ = q₀`, `Sᵢ = α·qᵢ + (1−α)·Sᵢ₋₁` over the remaining
quantities in order. -/
theorem c8_exponential_smoothing_recursion :
    (∀ alpha : ℚ, exponentialSmoothing [] alpha = 0) ∧
    (∀ (p : TimeSeriesData) (alpha : ℚ), exponentialSmoothing [p] alpha = p.quantity) ∧
    (∀ (p : TimeSeriesData) (rest : List TimeSeriesData),
      exponentialSmoothing (p :: rest) 0.3 =
        esSpecRecursion 0.3 p.quantity (rest.map fun q => q.quantity)) := by
  refine ⟨fun _ => rfl, fun _ _ => rfl, fun p rest => ?_⟩
  have hfold : ∀ (qs : List ℚ) (s : ℚ),
      esSpecRecursion 0.3 s qs = qs.foldl (fun acc q => 0.3 * q + (1 - 0.3) * acc) s := by
    intro qs
    induction qs with
    | nil => intro s; rfl
    | cons q qs ih =>
      intro s
      rw [esSpecRecursion, List.foldl_cons, ih]
  rw [hfold, List.foldl_map]
  rfl

/-- **C10**: the target date influences the output only through its weekday —
two targets with equal `getDay` produce identical mappings. -/
theorem c10_target_only_weekday (E : ℚ → ℚ) (recs : List SalesRecord) (d₁ d₂ : ℤ)
    (h : getDay d₁ = getDay d₂) :
    advancedForecast E recs d₁ = advancedForecast E recs d₂ := by
  unfold advancedForecast
  rw [h]

theorem c10_witness :
    advancedForecast (fun _ => 1) [⟨0, "A", 3⟩] 3600000 =
      advancedForecast (fun _ => 1) [⟨0, "A", 3⟩] 604800000 :=
  c10_target_only_weekday _ _ _ _ (by decide)

/-- **C4**: an item whose history is exactly one record of non-negative
integer quantity `q` is mapped to exactly `q`: all four estimators degenerate
to `q` on a length-1 series and the ensemble weights sum to 1. -/
theorem c4_single_record (E : ℚ → ℚ) (recs : List SalesRecord) (target : ℤ)
    (item : String) (r : SalesRecord) (q : ℤ) (hE : 0 < E 0)
    (hg : itemGroup recs item = [r]) (hq : r.quantity = (q : ℚ)) (hq0 : 0 ≤ q) :
    (advancedForecast E recs target).lookup item = some q := by
  have hmem : item ∈ recs.map fun s => s.item :=
    mem_items_of_itemGroup_ne_nil (by rw [hg]; exact List.cons_ne_nil r [])
  rw [lookup_advancedForecast, if_pos hmem]
  rw [forecastItem_singleton E recs (getDay target) item _ hE (seriesFor_singleton recs item r hg)]
  show some (max 0 (round r.quantity)) = some q
  rw [hq, round_intCast, max_eq_right hq0]

unseal Rat.ofScientific Rat.mul Rat.inv Rat.add Rat.sub in
theorem c4_witness :
    (advancedForecast (fun _ => (1 : ℚ)) [⟨0, "Salad", 5⟩] 0).lookup "Salad" = some 5 :=
  c4_single_record (fun _ => 1) [⟨0, "Salad", 5⟩] 0 "Salad" ⟨0, "Salad", 5⟩ 5 one_pos
    (by decide) (by norm_num) (by norm_num)

/-- **C5**: on a series of length ≥ 2 whose `daysSinceStart` values are all
identical, `linearTrendForecast` takes the zero-denominator branch and returns
the series mean instead of dividing by zero; consequently, on the
duplicate-date "Soup" scenario `advancedForecast` totally computes a
non-negative integer for "Soup", for every weight function. -/
theorem c5_duplicate_dates (ts : List TimeSeriesData) (x0 : ℤ) (h2 : 2 ≤ ts.length)
    (hx : ∀ p ∈ ts, p.daysSinceStart = x0) :
    linearTrendForecast ts = (ts.map fun p => p.quantity).sum / ts.length ∧
    ∀ E : ℚ → ℚ, ∃ v : ℤ,
      (advancedForecast E [⟨0, "Soup", 7⟩, ⟨0, "Soup", 9⟩] 86400000).lookup "Soup" = some v ∧
      0 ≤ v := by
  constructor
  · have h1 : (ts.map fun p => (p.daysSinceStart : ℚ)).sum = (ts.length : ℚ) * (x0 : ℚ) := by
      have hc : ts.map (fun p => (p.daysSinceStart : ℚ)) = ts.map fun _ => (x0 : ℚ) :=
        List.map_congr_left fun p hp => by rw [hx p hp]
      rw [hc, List.map_const', List.sum_replicate, nsmul_eq_mul]
    have h2' : (ts.map fun p => (p.daysSinceStart : ℚ) * (p.daysSinceStart : ℚ)).sum =
        (ts.length : ℚ) * ((x0 : ℚ) * (x0 : ℚ)) := by
      have hc : ts.map (fun p => (p.daysSinceStart : ℚ) * (p.daysSinceStart : ℚ)) =
          ts.map fun _ => (x0 : ℚ) * (x0 : ℚ) :=
        List.map_congr_left fun p hp => by rw [hx p hp]
      rw [hc, List.map_const', List.sum_replicate, nsmul_eq_mul]
    simp only [linearTrendForecast]
    rw [if_neg (by omega)]
    split
    · rfl
    · rename_i hden
      exact absurd (by rw [h1, h2']; ring) hden
  · intro E
    refine ⟨forecastItem E [⟨0, "Soup", 7⟩, ⟨0, "Soup", 9⟩] (getDay 86400000) "Soup", ?_,
      forecastItem_nonneg _ _ _ _⟩
    rw [lookup_advancedForecast, if_pos (by decide)]

theorem c5_witness :
    linearTrendForecast [⟨0, 7, 4, 1⟩, ⟨0, 9, 4, 1⟩] = 8 := by
  have h := (c5_duplicate_dates [⟨0, 7, 4, 1⟩, ⟨0, 9, 4, 1⟩] 1 (by decide) (by decide)).1
  rw [h]
  norm_num

/-- **C7**: for an item with a non-empty series, the returned value is exactly
`max(0, round(0.30·WMA(s, 0.7) + 0.30·ES(s, 0.3) + 0.25·DOW(s, weekday) +
0.15·LT(s)))`, all estimators run on the same normalized series and the
target's weekday. -/
theorem c7_ensemble_formula (E : ℚ → ℚ) (recs : List SalesRecord) (target : ℤ)
    (item : String) (h : itemGroup recs item ≠ []) :
    (advancedForecast E recs target).lookup item =
      some (max 0 (round
        (0.3 * weightedMovingAverage E (seriesFor recs item) 0.7 +
         0.3 * exponentialSmoothing (seriesFor recs item) 0.3 +
         0.25 * dayOfWeekPattern E (seriesFor recs item) (getDay target) +
         0.15 * linearTrendForecast (seriesFor recs item)))) := by
  rw [lookup_advancedForecast, if_pos (mem_items_of_itemGroup_ne_nil h)]
  simp only [forecastItem]
  rw [if_neg (by rw [length_seriesFor]; simpa [List.length_eq_zero] using h)]
  congr 2
  simp only [List.zip_cons_cons, List.zip_nil_left, List.foldl_cons, List.foldl_nil]
  ring_nf

unseal Rat.ofScientific Rat.mul Rat.inv Rat.add Rat.sub in
/-- **C3 counterexample**: the claim as stated fails when two records of one
item share a calendar date — the stable chronological sort then preserves the
input order of the tied records, and the position-weighted estimators read it:
swapping two same-date "A" records with quantities 0 and 100 changes the
output (44 versus 56 for the constant weight function). -/
theorem c3_counterexample :
    ([⟨0, "A", 0⟩, ⟨0, "A", 100⟩] : List SalesRecord).Perm [⟨0, "A", 100⟩, ⟨0, "A", 0⟩] ∧
    (advancedForecast (fun _ => 1) [⟨0, "A", 0⟩, ⟨0, "A", 100⟩] 0).lookup "A" ≠
      (advancedForecast (fun _ => 1) [⟨0, "A", 100⟩, ⟨0, "A", 0⟩] 0).lookup "A" :=
  ⟨List.Perm.swap _ _ _, by decide⟩

/-- **C3 amended**: shuffling the input record list changes no output value,
provided that within each item the calendar date determines the record (in
particular whenever no two records of one item share a date). -/
theorem c3_order_independence (E : ℚ → ℚ) (l₁ l₂ : List SalesRecord) (target : ℤ)
    (hp : l₁.Perm l₂)
    (hdate : ∀ r ∈ l₁, ∀ s ∈ l₁, r.item = s.item → r.date = s.date → r = s)
    (item : String) :
    (advancedForecast E l₁ target).lookup item =
      (advancedForecast E l₂ target).lookup item := by
  rw [lookup_advancedForecast, lookup_advancedForecast]
  have hmem : (item ∈ l₁.map fun r => r.item) ↔ (item ∈ l₂.map fun r => r.item) :=
    (hp.map _).mem_iff
  have hfi : forecastItem E l₁ (getDay target) item =
      forecastItem E l₂ (getDay target) item := by
    unfold forecastItem
    rw [seriesFor_perm_eq l₁ l₂ item hp hdate]
  by_cases h : item ∈ l₁.map fun r => r.item
  · rw [if_pos h, if_pos (hmem.1 h), hfi]
  · rw [if_neg h, if_neg fun hh => h (hmem.2 hh)]

unseal Rat.ofScientific Rat.mul Rat.inv Rat.add Rat.sub in
theorem c3_witness :
    (advancedForecast (fun _ => 1) [⟨0, "A", 2⟩, ⟨86400000, "A", 4⟩] 0).lookup "A" =
      (advancedForecast (fun _ => 1) [⟨86400000, "A", 4⟩, ⟨0, "A", 2⟩] 0).lookup "A" :=
  c3_order_independence (fun _ => 1) _ _ 0 (List.Perm.swap _ _ _) (by decide) "A"

theorem c7_witness :
    (advancedForecast (fun _ => 1) [⟨0, "A", 5⟩] 0).lookup "A" =
      some (max 0 (round
        (0.3 * weightedMovingAverage (fun _ => 1) (seriesFor [⟨0, "A", 5⟩] "A") 0.7 +
         0.3 * exponentialSmoothing (seriesFor [⟨0, "A", 5⟩] "A") 0.3 +
         0.25 * dayOfWeekPattern (fun _ => 1) (seriesFor [⟨0, "A", 5⟩] "A") (getDay 0) +
         0.15 * linearTrendForecast (seriesFor [⟨0, "A", 5⟩] "A")))) :=
  c7_ensemble_formula (fun _ => 1) [⟨0, "A", 5⟩] 0 "A" (by decide)

unseal Rat.ofScientific Rat.mul Rat.inv Rat.add Rat.sub in
/-- **C9 (Scenario A)**: "Burger" with quantities 10, 12, 11, 13, 12, 14, 13
on seven consecutive days, forecast for the 8th day, yields a value in
[11, 15], for every positive weight function (in particular for `exp`):
the moving average is pinned to [10, 14], the day-of-week estimate is exactly
10, and smoothing and trend are fixed rationals. -/
theorem c9_scenario_a (E : ℚ → ℚ) (hE : ∀ x, 0 < E x) :
    ∃ v : ℤ, (advancedForecast E burgerRecords 604800000).lookup "Burger" = some v ∧
      11 ≤ v ∧ v ≤ 15 := by
  have hs : seriesFor burgerRecords "Burger" =
      [⟨0, 10, 4, 1⟩, ⟨86400000, 12, 5, 2⟩, ⟨172800000, 11, 6, 3⟩, ⟨259200000, 13, 0, 4⟩,
       ⟨345600000, 12, 1, 5⟩, ⟨432000000, 14, 2, 6⟩, ⟨518400000, 13, 3, 7⟩] := by decide
  have hday : getDay 604800000 = 4 := by decide
  have hES : exponentialSmoothing (seriesFor burgerRecords "Burger") 0.3 =
      3128893 / 250000 := by
    rw [hs]; decide
  have hLT : linearTrendForecast (seriesFor burgerRecords "Burger") = 99 / 7 := by
    rw [hs]; decide
  have hDOW : dayOfWeekPattern E (seriesFor burgerRecords "Burger") (getDay 604800000) =
      10 := by
    rw [hs, hday]
    have h10 := dow_filter_singleton E
      [⟨0, 10, 4, 1⟩, ⟨86400000, 12, 5, 2⟩, ⟨172800000, 11, 6, 3⟩, ⟨259200000, 13, 0, 4⟩,
       ⟨345600000, 12, 1, 5⟩, ⟨432000000, 14, 2, 6⟩, ⟨518400000, 13, 3, 7⟩]
      4 ⟨0, 10, 4, 1⟩ (hE 0) (by decide)
    simpa using h10
  have hWMA := wma_bounds E (seriesFor burgerRecords "Burger") 0.7 10 14 hE
    (by rw [hs]; decide) (by rw [hs]; decide) (by rw [hs]; decide)
  refine ⟨forecastItem E burgerRecords (getDay 604800000) "Burger", ?_, ?_⟩
  · rw [lookup_advancedForecast, if_pos (by decide)]
  · simp only [forecastItem]
    rw [if_neg (by rw [hs]; decide)]
    simp only [List.zip_cons_cons, List.zip_nil_left, List.foldl_cons, List.foldl_nil]
    rw [hES, hLT, hDOW]
    obtain ⟨hW1, hW2⟩ := hWMA
    have hround := round_mem_Icc
      (x := 0 + weightedMovingAverage E (seriesFor burgerRecords "Burger") 0.7 * 0.3 +
        3128893 / 250000 * 0.3 + 10 * 0.25 + 99 / 7 * 0.15) (a := 11) (b := 15)
      (by push_cast; linarith) (by push_cast; linarith)
    rw [max_eq_right (le_trans (by norm_num : (0 : ℤ) ≤ 11) hround.1)]
    exact hround

unseal Rat.ofScientific Rat.mul Rat.inv Rat.add Rat.sub in
theorem c9_witness :
    ∃ v : ℤ,
      (advancedForecast (fun _ => 1) burgerRecords 604800000).lookup "Burger" = some v ∧
      11 ≤ v ∧ v ≤ 15 :=
  c9_scenario_a (fun _ => 1) fun _ => one_pos

end ForecastingTs
